import Mathlib

/-!
Verification development for a Raspberry Pi 5 swarm-monitor node
(`main.py`): a UDP ingestion loop that parses framed datagrams from
ESP devices, tracks the current "master" swarm id, accumulates per-id
master durations, keeps a bounded deque of recent analog readings,
records raw per-sender log lines, and supports a button-triggered
reset that broadcasts a sentinel, clears state and pulses a LED.

The Python module is shallowly embedded: the global mutable state is a
`PyState` record, the body of `listen_for_messages` that handles one
received datagram becomes `processDatagram` (with `Except`, the error
branch modelling an uncaught Python exception carrying the state at
the moment it was raised), `reset_system` becomes a pure function
returning the explicit trace of externally visible effects, and the
log-file functions become pure functions over a filesystem modelled as
an association list of file name to content.  Python `str` is
modelled as Lean `String`; parsing operations (`startswith`,
`endswith`, slicing, `in`, `split`) work on the character sequence
(`String.toList`), which is exactly Python's view of a `str` as a
sequence of code points.  `datetime.now()` is an explicit `String`
argument, socket I/O is explicit input (queue of datagrams) and
output (effect trace); `int(...)` is modelled for ASCII decimal
literals (whitespace, sign, digits, underscore separators).
-/

/-- Start delimiter for messages (constant `RPi_startBit`). -/
def RPi_startBit : String := "+++"

/-- End delimiter for messages (constant `RPi_endBit`). -/
def RPi_endBit : String := "***"

/-- Whitespace characters stripped by Python `int()` (ASCII model). -/
def pyIsSpace (c : Char) : Bool :=
  c = ' ' || c = '\t' || c = '\n' || c = '\r' || c = '\x0b' || c = '\x0c'

/-- After a leading digit, Python integer literals allow single
underscores between digits. -/
def digitsUnd : List Char → Bool
  | [] => true
  | '_' :: c :: rest => c.isDigit && digitsUnd rest
  | c :: rest => c.isDigit && digitsUnd rest

/-- Numeric value of a digit string, ignoring underscore separators. -/
def digitsToNat (l : List Char) : Nat :=
  (l.filter (fun c => c ≠ '_')).foldl (fun n c => 10 * n + (c.toNat - 48)) 0

/-- Unsigned part of Python `int(...)`: nonempty digits with optional
underscore separators. -/
def pyIntCore (l : List Char) : Option Int :=
  match l with
  | [] => none
  | c :: rest =>
    if c.isDigit && digitsUnd rest then some (Int.ofNat (digitsToNat (c :: rest)))
    else none

/-- Model of Python `int(str)` on ASCII decimal literals: strip
whitespace, optional sign, digits with underscore separators.
`none` models a raised `ValueError`.  The argument is the character
sequence of the string. -/
def pyInt (chars : List Char) : Option Int :=
  let l := ((chars.dropWhile pyIsSpace).reverse.dropWhile pyIsSpace).reverse
  match l with
  | '+' :: rest => pyIntCore rest
  | '-' :: rest => (pyIntCore rest).map (fun n => -n)
  | _ => pyIntCore l

/-- Python `data.split(',')` on the character sequence: split at every
comma; `"".split(',')` is `['']`. -/
def splitComma : List Char → List (List Char)
  | [] => [[]]
  | c :: rest =>
    match splitComma rest with
    | [] => [[c]]
    | g :: gs => if c = ',' then [] :: g :: gs else (c :: g) :: gs

/-- Python slice `message[len(RPi_startBit):-len(RPi_endBit)]` on the
character sequence: drop 3 from the front and 3 from the back. -/
def stripMarkers (l : List Char) : List Char :=
  let l2 := l.drop RPi_startBit.length
  l2.take (l2.length - RPi_endBit.length)

/-- `deque(maxlen=30)` append: keep the most recent 30 elements. -/
def dequeAppend (l : List Int) (x : Int) : List Int :=
  let l2 := l ++ [x]
  l2.drop (l2.length - 30)

/-- Ordered-dictionary lookup (Python `dict` keeps insertion order and
unique keys; the first matching key is the only one). -/
def alistLookup {α : Type} : List (String × α) → String → Option α
  | [], _ => none
  | (k2, v) :: rest, k => if k2 = k then some v else alistLookup rest k

/-- `defaultdict(int)` read: missing keys read as `0`. -/
def alistLookupNat (l : List (String × Nat)) (k : String) : Nat :=
  (alistLookup l k).getD 0

/-- `MASTER_DURATION_TRACK[swarm_id] += 1` on a `defaultdict(int)`:
update in place if present, else insert at the end with value 1. -/
def alistIncr : List (String × Nat) → String → List (String × Nat)
  | [], k => [(k, 1)]
  | (k2, v) :: rest, k =>
    if k2 = k then (k2, v + 1) :: rest else (k2, v) :: alistIncr rest k

/-- `MASTER_LOG_TRACK[ip].append(entry)` on a `defaultdict(list)`:
append to the existing list, or insert a fresh singleton at the end. -/
def alistAppendEntry : List (String × List String) → String → String → List (String × List String)
  | [], ip, e => [(ip, [e])]
  | (k, v) :: rest, ip, e =>
    if k = ip then (k, v ++ [e]) :: rest else (k, v) :: alistAppendEntry rest ip e

/-- The module's global mutable state. -/
structure PyState where
  /-- `RESET_REQUEST` -/
  resetRequest : Bool
  /-- `ANALOG_READINGS`, a `deque(maxlen=30)` of ints -/
  analogReadings : List Int
  /-- `SWARM_COLORS`, insertion-ordered dict swarm id → color name -/
  swarmColors : List (String × String)
  /-- `CURRENT_MASTER` -/
  currentMaster : Option String
  /-- `MASTER_DURATION_TRACK`, `defaultdict(int)` -/
  masterDuration : List (String × Nat)
  /-- `MASTER_LOG_TRACK`, `defaultdict(list)` ip → raw log lines -/
  masterLog : List (String × List String)
  /-- `LOG_FILE` (`none` models Python `None`) -/
  logFile : Option String
deriving DecidableEq

/-- Initial global state of the module. -/
def initState : PyState :=
  { resetRequest := false
    analogReadings := []
    swarmColors := []
    currentMaster := none
    masterDuration := []
    masterLog := []
    logFile := none }

/-- Color chosen in `listen_for_messages` for a newly seen swarm id,
as a function of `len(SWARM_COLORS)` at assignment time. -/
def colorFor (n : Nat) : String :=
  if n = 0 then "red" else if n = 1 then "green" else "yellow"

/-- Handling of one received datagram: the body of the
`listen_for_messages` loop after `recvfrom` (source lines 116-154),
with `datetime.now()` passed in as `now` and the sender address as
`ip`.  `Except.error s` models an uncaught Python exception
(`ValueError` from tuple unpacking or from `int(...)`) escaping with
the state as mutated so far; `Except.ok s` means the iteration
finished (whether the message was applied or silently discarded). -/
def processDatagram (now ip : String) (s : PyState) (message : String) : Except PyState PyState :=
  let ml := message.toList
  if RPi_startBit.toList.isPrefixOf ml && RPi_endBit.toList.isSuffixOf ml then
    let data := stripMarkers ml
    if data.contains ',' then
      match splitComma data with
      | [sidChars, readChars] =>
        let swarm_id := String.mk sidChars
        let analog_reading := String.mk readChars
        let log_entry :=
          "Time: " ++ now ++ ", Swarm ID: " ++ swarm_id ++ ", Reading: " ++ analog_reading
        let s1 := { s with masterLog := alistAppendEntry s.masterLog ip log_entry }
        if data = "RESET_REQUESTED".toList then
          Except.ok s1
        else
          match pyInt readChars with
          | none => Except.error s1
          | some r =>
            let s2 := { s1 with analogReadings := dequeAppend s1.analogReadings r }
            let s3 :=
              if (alistLookup s2.swarmColors swarm_id).isSome then s2
              else { s2 with
                      swarmColors := s2.swarmColors ++ [(swarm_id, colorFor s2.swarmColors.length)] }
            let s4 :=
              if s3.currentMaster ≠ some swarm_id then { s3 with currentMaster := some swarm_id }
              else s3
            Except.ok { s4 with masterDuration := alistIncr s4.masterDuration swarm_id }
      | _ => Except.error s
    else
      Except.ok s
  else
    Except.ok s

/-- The state an iteration left behind, whether it finished normally
or died with an exception. -/
def outState (r : Except PyState PyState) : PyState :=
  match r with
  | Except.ok s => s
  | Except.error s => s

instance {ε α : Type} [DecidableEq ε] [DecidableEq α] : DecidableEq (Except ε α)
  | Except.ok a, Except.ok b =>
    if h : a = b then Decidable.isTrue (by rw [h])
    else Decidable.isFalse (fun hc => h (Except.ok.inj hc))
  | Except.error a, Except.error b =>
    if h : a = b then Decidable.isTrue (by rw [h])
    else Decidable.isFalse (fun hc => h (Except.error.inj hc))
  | Except.ok _, Except.error _ => Decidable.isFalse (fun hc => Except.noConfusion hc)
  | Except.error _, Except.ok _ => Decidable.isFalse (fun hc => Except.noConfusion hc)

/-- Externally visible actions performed by `reset_system`, in
program order: writes to the shared `RESET_REQUEST` flag, the UDP
broadcast, the store clear, the yellow-LED writes and the
`time.sleep`. -/
inductive Effect where
  | setResetFlag : Bool → Effect
  | broadcast : String → Effect
  | clearStore : Effect
  | setLed : Nat → Effect
  | sleep : Nat → Effect
deriving DecidableEq

/-- The reset announcement datagram built in `reset_system`
(source line 85). -/
def resetMessage : String := RPi_startBit ++ "RESET_REQUESTED" ++ RPi_endBit

/-- `reset_system` (source lines 75-100), with the possibility that
`sock.sendto` raises a transport `OSError` made explicit as the
`sendFails` input.  The result carries the ordered trace of effects
together with the final state; `Except.error` models the exception
propagating out of `reset_system` (the function has no handler), with
the effects performed and the state reached up to that point. -/
def reset_systemE (sendFails : Bool) (s : PyState) : Except (List Effect × PyState) (List Effect × PyState) :=
  let s1 := { s with resetRequest := true }
  if sendFails then Except.error ([Effect.setResetFlag true], s1)
  else
    let s2 := { s1 with
                  swarmColors := []
                  currentMaster := none
                  masterDuration := []
                  analogReadings := [] }
    Except.ok
      ([Effect.setResetFlag true, Effect.broadcast resetMessage, Effect.clearStore,
        Effect.setLed 1, Effect.sleep 3, Effect.setLed 0, Effect.setResetFlag false],
       { s2 with resetRequest := false })

/-- `reset_system` on the normal path (the broadcast send succeeds). -/
def reset_system (s : PyState) : List Effect × PyState :=
  match reset_systemE false s with
  | Except.ok r => r
  | Except.error r => r

/-- `get_new_log_file` (source lines 43-51): derive a fresh file name
from the current timestamp and store it in `LOG_FILE`. -/
def get_new_log_file (timestamp : String) (s : PyState) : PyState :=
  { s with logFile := some ("master_log_" ++ timestamp ++ ".txt") }

/-- Python `'\n'.join(logs)`. -/
def joinLines : List String → String
  | [] => ""
  | [x] => x
  | x :: rest => x ++ "\n" ++ joinLines rest

/-- The exact text `save_current_logs` writes (source lines 62-71):
header, masters summary from `MASTER_DURATION_TRACK`, then the raw
data logs from `MASTER_LOG_TRACK` grouped by IP. -/
def renderLog (now : String) (s : PyState) : String :=
  "Log File Created: " ++ now ++ "\n\n" ++
  "Masters Summary:\n" ++
  String.join (s.masterDuration.map (fun p =>
    "Swarm ID: " ++ p.1 ++ ", Total Master Duration: " ++ toString p.2 ++ " seconds\n")) ++
  "\nRaw Data Logs:\n" ++
  String.join (s.masterLog.map (fun p =>
    "\nIP: " ++ p.1 ++ "\n" ++ joinLines p.2 ++ "\n"))

/-- Durable storage, modelled as file name → content; `open(f, 'w')`
truncates, so writing replaces any previous content of that name. -/
def fsWrite : List (String × String) → String → String → List (String × String)
  | [], f, c => [(f, c)]
  | (k, v) :: rest, f, c => if k = f then (k, c) :: rest else (k, v) :: fsWrite rest f c

/-- `save_current_logs` (source lines 53-73): if `LOG_FILE` is unset
do nothing, otherwise write the rendered session text to that file.
The in-memory state is read only, never mutated. -/
def save_current_logs (now : String) (fs : List (String × String)) (s : PyState) :
    List (String × String) :=
  match s.logFile with
  | none => fs
  | some f => fsWrite fs f (renderLog now s)

/-- The button-press handler body in `monitor_button` (source lines
166-168): save logs, start a new log file, then run the reset.
`now` is the timestamp at the save, `newTimestamp` the one used for
the new file name. -/
def buttonPressAction (now newTimestamp : String) (fs : List (String × String)) (s : PyState) :
    List (String × String) × List Effect × PyState :=
  let fs2 := save_current_logs now fs s
  let s2 := get_new_log_file newTimestamp s
  let r := reset_system s2
  (fs2, r.1, r.2)

/-- One received datagram as the ingestion loop sees it:
`(now, senderIp, payloadText)`. -/
abbrev Datagram := String × String × String

/-- `listen_for_messages`' loop run over a list of already received
datagrams, with `RESET_REQUEST` held inactive throughout: each
iteration handles one datagram; an uncaught exception terminates the
loop (the thread dies), leaving the state mutated so far. -/
def runLoop (s : PyState) : List Datagram → PyState
  | [] => s
  | (now, ip, m) :: rest =>
    match processDatagram now ip s m with
    | Except.ok s2 => runLoop s2 rest
    | Except.error s2 => s2

/-- `listen_for_messages` with the `RESET_REQUEST` guard (source
lines 109-114): the schedule gives the value of the flag the loop
observes at each iteration (it is written concurrently by
`reset_system`).  When the flag is set the iteration does not call
`recvfrom`, so the pending datagram stays queued in the socket
buffer; otherwise the head datagram is received and handled.  Returns
the remaining queue and the state when the schedule (or the queue)
runs out or an exception kills the loop. -/
def runWithResets : List Bool → List Datagram → PyState → List Datagram × PyState
  | [], q, s => (q, s)
  | b :: bs, q, s =>
    if b then runWithResets bs q s
    else
      match q with
      | [] => ([], s)
      | (now, ip, m) :: rest =>
        match processDatagram now ip s m with
        | Except.ok s2 => runWithResets bs rest s2
        | Except.error s2 => (rest, s2)

/-- Framing check of `listen_for_messages` line 119 on a payload. -/
def framesOk (m : String) : Bool :=
  RPi_startBit.toList.isPrefixOf m.toList && RPi_endBit.toList.isSuffixOf m.toList

/-- The interior of a framed payload (line 120). -/
def dataOf (m : String) : List Char := stripMarkers m.toList

/-- A payload whose handling raises no exception: either it is
discarded before the separator split, or the split gives exactly two
parts and (unless it is the sentinel) the reading parses as an
integer. -/
def msgOk (m : String) : Bool :=
  if framesOk m then
    if (dataOf m).contains ',' then
      match splitComma (dataOf m) with
      | [_, b] => dataOf m == "RESET_REQUESTED".toList || (pyInt b).isSome
      | _ => false
    else true
  else true

/-- A payload the loop fully applies to the store: framed, exactly
one separator, not the sentinel, integer-parsable reading. -/
def acceptedMsg (m : String) : Bool :=
  framesOk m &&
  (dataOf m).contains ',' &&
  (match splitComma (dataOf m) with
   | [_, b] => !(dataOf m == "RESET_REQUESTED".toList) && (pyInt b).isSome
   | _ => false)

/-- The swarm id carried by a payload (first field of the split). -/
def swarmIdOf (m : String) : String :=
  match splitComma (dataOf m) with
  | a :: _ => String.mk a
  | [] => ""

/-- The integer reading carried by an accepted payload. -/
def readingOf (m : String) : Int :=
  match splitComma (dataOf m) with
  | [_, b] => (pyInt b).getD 0
  | _ => 0

/-- The raw log line built for a payload with exactly one separator
(source line 128). -/
def logLineOf (now : String) (m : String) : String :=
  match splitComma (dataOf m) with
  | [a, b] => "Time: " ++ now ++ ", Swarm ID: " ++ String.mk a ++ ", Reading: " ++ String.mk b
  | _ => ""

/-- Number of accepted payloads carrying a given swarm id in a list
of datagrams. -/
def countAccepted (id : String) (msgs : List Datagram) : Nat :=
  (msgs.filter (fun t => acceptedMsg t.2.2 && swarmIdOf t.2.2 == id)).length

/-- Swarm ids of the accepted payloads, in processing order. -/
def acceptedIds (msgs : List Datagram) : List String :=
  (msgs.filter (fun t => acceptedMsg t.2.2)).map (fun t => swarmIdOf t.2.2)

/-- Distinct elements in order of first appearance (used to state the
arrival-order color policy). -/
def firstSeen : List String → List String → List String
  | acc, [] => acc
  | acc, x :: rest => if acc.contains x then firstSeen acc rest else firstSeen (acc ++ [x]) rest

/-- The ordered-palette policy: the `i`-th distinct id gets
`colorFor i` (red, green, then yellow for everyone later). -/
def paletteAssign : Nat → List String → List (String × String)
  | _, [] => []
  | i, x :: rest => (x, colorFor i) :: paletteAssign (i + 1) rest

/-- The color-table update the loop performs for a sequence of
accepted swarm ids: insert each id if absent, with the color chosen
from the table size at insertion time. -/
def insertAll : List (String × String) → List String → List (String × String)
  | cs, [] => cs
  | cs, j :: rest =>
    insertAll (if (alistLookup cs j).isSome then cs else cs ++ [(j, colorFor cs.length)]) rest

/-- Whether an effect is a UDP broadcast send. -/
def isBroadcast : Effect → Bool
  | Effect.broadcast _ => true
  | _ => false

/-- The state after the loop fully applies an accepted payload:
log line appended, reading pushed into the deque, color assigned if
absent, master set, duration incremented. -/
def pdApplied (now ip : String) (s : PyState) (m : String) : PyState :=
  { s with
      masterLog := alistAppendEntry s.masterLog ip (logLineOf now m)
      analogReadings := dequeAppend s.analogReadings (readingOf m)
      swarmColors :=
        if (alistLookup s.swarmColors (swarmIdOf m)).isSome then s.swarmColors
        else s.swarmColors ++ [(swarmIdOf m, colorFor s.swarmColors.length)]
      currentMaster := some (swarmIdOf m)
      masterDuration := alistIncr s.masterDuration (swarmIdOf m) }

lemma contains_of_splitComma_two {l : List Char} (h : 2 ≤ (splitComma l).length) :
    l.contains ',' = true := by
  induction l with
  | nil => simp [splitComma] at h
  | cons c rest ih =>
    simp only [splitComma] at h
    rcases hs : splitComma rest with _ | ⟨g, gs⟩
    · rw [hs] at h; simp at h
    · rw [hs] at h
      by_cases hc : c = ','
      · simp [List.contains_cons, hc]
      · simp only [if_neg hc] at h
        simp only [List.length_cons] at h
        have hm : ',' ∈ rest := by simpa using ih (by rw [hs]; simpa using h)
        simp [hm]

/-- The sentinel interior has no comma, so the sentinel branch of the
parser is unreachable once a comma is known to be present. -/
lemma sentinel_no_comma : ("RESET_REQUESTED".toList).contains ',' = false := by decide

lemma ite_currentMaster (s : PyState) (v : Option String) :
    (if s.currentMaster ≠ v then { s with currentMaster := v } else s) =
      { s with currentMaster := v } := by
  by_cases h : s.currentMaster ≠ v
  · rw [if_pos h]
  · rw [if_neg h]
    push_neg at h
    cases s
    simp_all

/-- Characterization of one iteration on a payload that raises no
exception: the payload is either fully applied (when accepted) or
leaves the state unchanged. -/
theorem processDatagram_msgOk (now ip : String) (s : PyState) (m : String)
    (h : msgOk m = true) :
    processDatagram now ip s m =
      Except.ok (if acceptedMsg m then pdApplied now ip s m else s) := by
  simp only [processDatagram]
  simp only [msgOk, framesOk, dataOf] at h
  by_cases hf :
      (RPi_startBit.toList.isPrefixOf m.toList && RPi_endBit.toList.isSuffixOf m.toList) = true
  · rw [if_pos hf]
    rw [if_pos hf] at h
    by_cases hc : (stripMarkers m.toList).contains ',' = true
    · rw [if_pos hc]
      rw [if_pos hc] at h
      obtain ⟨sp, hsp⟩ : ∃ sp, splitComma (stripMarkers m.toList) = sp := ⟨_, rfl⟩
      rcases sp with _ | ⟨a, _ | ⟨b, _ | _⟩⟩
      · rw [hsp] at h; simp at h
      · rw [hsp] at h; simp at h
      · simp only [hsp] at h ⊢
        by_cases hsent : stripMarkers m.toList = "RESET_REQUESTED".toList
        · exact absurd hc (by rw [hsent, sentinel_no_comma]; simp)
        · have hsentb : (stripMarkers m.toList == "RESET_REQUESTED".toList) = false :=
            beq_eq_false_iff_ne.mpr hsent
          rw [if_neg hsent]
          rw [hsentb] at h
          simp only [Bool.false_or] at h
          obtain ⟨r, hpi⟩ := Option.isSome_iff_exists.mp h
          simp only [hpi]
          have hacc : acceptedMsg m = true := by
            simp only [acceptedMsg, framesOk, dataOf, hsp, hf, hc, hsentb, hpi]
            simp
          rw [if_pos hacc]
          simp only [pdApplied, swarmIdOf, readingOf, logLineOf, dataOf, hsp, hpi,
            Option.getD_some]
          by_cases hcl : (alistLookup s.swarmColors (String.mk a)).isSome = true
          · simp only [if_pos hcl]
            by_cases hcm : s.currentMaster ≠ some (String.mk a)
            · rw [if_pos hcm]
            · rw [if_neg hcm]
              push_neg at hcm
              rw [hcm]
          · simp only [if_neg hcl]
            by_cases hcm : s.currentMaster ≠ some (String.mk a)
            · rw [if_pos hcm]
            · rw [if_neg hcm]
              push_neg at hcm
              rw [hcm]
      · rw [hsp] at h; simp at h
    · rw [if_neg hc]
      have hacc : acceptedMsg m = false := by
        have hcb : (stripMarkers m.toList).contains ',' = false := by
          revert hc; cases (stripMarkers m.toList).contains ',' <;> simp
        simp only [acceptedMsg, framesOk, dataOf, hcb, Bool.and_false, Bool.false_and]
      rw [if_neg (by simp [hacc])]
  · rw [if_neg hf]
    have hacc : acceptedMsg m = false := by
      have hfb :
          (RPi_startBit.toList.isPrefixOf m.toList && RPi_endBit.toList.isSuffixOf m.toList) =
            false := by
        revert hf
        cases (RPi_startBit.toList.isPrefixOf m.toList && RPi_endBit.toList.isSuffixOf m.toList) <;>
          simp
      simp only [acceptedMsg, framesOk, hfb, Bool.false_and]
    rw [if_neg (by simp [hacc])]

lemma msgOk_of_accepted {m : String} (h : acceptedMsg m = true) : msgOk m = true := by
  simp only [acceptedMsg, framesOk, dataOf, Bool.and_eq_true] at h
  obtain ⟨⟨⟨hp, hs⟩, hc⟩, hm⟩ := h
  simp only [msgOk, framesOk, dataOf]
  rw [if_pos (show (RPi_startBit.toList.isPrefixOf m.toList &&
    RPi_endBit.toList.isSuffixOf m.toList) = true by rw [Bool.and_eq_true]; exact ⟨hp, hs⟩),
    if_pos hc]
  obtain ⟨sp, hsp⟩ : ∃ sp, splitComma (stripMarkers m.toList) = sp := ⟨_, rfl⟩
  rcases sp with _ | ⟨a, _ | ⟨b, _ | _⟩⟩
  · rw [hsp] at hm; simp at hm
  · rw [hsp] at hm; simp at hm
  · rw [hsp] at hm ⊢
    simp at hm ⊢
    exact Or.inr hm.2
  · rw [hsp] at hm; simp at hm

lemma runLoop_cons_ok (now ip m : String) (s : PyState) (rest : List Datagram)
    (hd : msgOk m = true) :
    runLoop s ((now, ip, m) :: rest) =
      runLoop (if acceptedMsg m then pdApplied now ip s m else s) rest := by
  simp only [runLoop]
  rw [processDatagram_msgOk now ip s m hd]

lemma runLoop_append (l1 l2 : List Datagram) (s : PyState)
    (h : ∀ x ∈ l1, msgOk x.2.2 = true) :
    runLoop s (l1 ++ l2) = runLoop (runLoop s l1) l2 := by
  induction l1 generalizing s with
  | nil => simp [runLoop]
  | cons d rest ih =>
    obtain ⟨now, ip, m⟩ := d
    have hd : msgOk m = true := h (now, ip, m) (by simp)
    have hrest : ∀ x ∈ rest, msgOk x.2.2 = true := fun x hx => h x (List.mem_cons_of_mem _ hx)
    rw [List.cons_append, runLoop_cons_ok now ip m s (rest ++ l2) hd,
      runLoop_cons_ok now ip m s rest hd]
    exact ih _ hrest

lemma alistLookup_incr_self (l : List (String × Nat)) (j : String) :
    alistLookup (alistIncr l j) j = some (alistLookupNat l j + 1) := by
  induction l with
  | nil => simp [alistIncr, alistLookup, alistLookupNat]
  | cons hd tl ih =>
    obtain ⟨k2, v⟩ := hd
    by_cases h2 : k2 = j
    · simp [alistIncr, alistLookup, alistLookupNat, h2]
    · simp only [alistIncr, if_neg h2, alistLookup]
      simpa [alistLookupNat, alistLookup, if_neg h2] using ih

lemma alistLookup_incr_other (l : List (String × Nat)) (j k : String) (h : j ≠ k) :
    alistLookup (alistIncr l j) k = alistLookup l k := by
  induction l with
  | nil => simp [alistIncr, alistLookup, if_neg h]
  | cons hd tl ih =>
    obtain ⟨k2, v⟩ := hd
    by_cases h2 : k2 = j
    · subst h2
      have hkk : ¬k2 = k := fun hh => h (hh ▸ rfl)
      simp [alistIncr, alistLookup, hkk]
    · by_cases hk : k2 = k
      · have hkj : ¬(k = j) := fun hh => h hh.symm
        simp [alistIncr, alistLookup, if_neg h2, hk, hkj]
      · simp [alistIncr, alistLookup, if_neg h2, hk, ih]

lemma alistLookupNat_incr_self (l : List (String × Nat)) (j : String) :
    alistLookupNat (alistIncr l j) j = alistLookupNat l j + 1 := by
  simp [alistLookupNat, alistLookup_incr_self]

lemma alistLookupNat_incr_other (l : List (String × Nat)) (j k : String) (h : j ≠ k) :
    alistLookupNat (alistIncr l j) k = alistLookupNat l k := by
  simp [alistLookupNat, alistLookup_incr_other l j k h]

lemma countAccepted_cons (id : String) (d : Datagram) (rest : List Datagram) :
    countAccepted id (d :: rest) =
      (if (acceptedMsg d.2.2 && (swarmIdOf d.2.2 == id)) = true then 1 else 0) +
        countAccepted id rest := by
  simp only [countAccepted, List.filter_cons]
  split
  · simp [Nat.add_comm]
  · simp

/-- Master-duration accounting over an exception-free run: each id's
counter advances by exactly the number of accepted payloads carrying
that id. -/
lemma masterDuration_runLoop (msgs : List Datagram) (s : PyState) (id : String)
    (h : ∀ x ∈ msgs, msgOk x.2.2 = true) :
    alistLookupNat (runLoop s msgs).masterDuration id =
      alistLookupNat s.masterDuration id + countAccepted id msgs := by
  induction msgs generalizing s with
  | nil => simp [runLoop, countAccepted]
  | cons d rest ih =>
    obtain ⟨now, ip, m⟩ := d
    have hd : msgOk m = true := h (now, ip, m) (by simp)
    have hrest : ∀ x ∈ rest, msgOk x.2.2 = true := fun x hx => h x (List.mem_cons_of_mem _ hx)
    rw [runLoop_cons_ok now ip m s rest hd, countAccepted_cons]
    by_cases hacc : acceptedMsg m = true
    · rw [if_pos hacc, ih _ hrest]
      have hmd : (pdApplied now ip s m).masterDuration =
          alistIncr s.masterDuration (swarmIdOf m) := rfl
      rw [hmd]
      by_cases hid : swarmIdOf m = id
      · rw [hid, alistLookupNat_incr_self]
        simp only [hacc, hid]
        simp
        omega
      · rw [alistLookupNat_incr_other _ _ _ hid]
        have : (acceptedMsg m && (swarmIdOf m == id)) = false := by
          simp [hid]
        simp only [this]
        simp
    · rw [if_neg hacc, ih _ hrest]
      have haccb : acceptedMsg m = false := by
        revert hacc; cases acceptedMsg m <;> simp
      have : (acceptedMsg m && (swarmIdOf m == id)) = false := by
        simp [haccb]
      simp only [this]
      simp

/-- Exhaustive behaviour of one iteration: discarded unchanged,
logged then finished (sentinel arm), logged then crashed (bad
reading), crashed unchanged (unpacking error), or fully applied. -/
theorem processDatagram_cases (now ip : String) (s : PyState) (m : String) :
    processDatagram now ip s m = Except.ok s ∨
    (∃ e, processDatagram now ip s m =
        Except.ok { s with masterLog := alistAppendEntry s.masterLog ip e }) ∨
    (∃ e, processDatagram now ip s m =
        Except.error { s with masterLog := alistAppendEntry s.masterLog ip e }) ∨
    processDatagram now ip s m = Except.error s ∨
    (acceptedMsg m = true ∧ processDatagram now ip s m = Except.ok (pdApplied now ip s m)) := by
  by_cases hok : msgOk m = true
  · rw [processDatagram_msgOk now ip s m hok]
    by_cases hacc : acceptedMsg m = true
    · exact Or.inr (Or.inr (Or.inr (Or.inr ⟨hacc, by rw [if_pos hacc]⟩)))
    · exact Or.inl (by rw [if_neg hacc])
  · have hok' : msgOk m = false := by revert hok; cases msgOk m <;> simp
    simp only [msgOk, framesOk, dataOf] at hok'
    by_cases hf :
        (RPi_startBit.toList.isPrefixOf m.toList && RPi_endBit.toList.isSuffixOf m.toList) = true
    · rw [if_pos hf] at hok'
      by_cases hc : (stripMarkers m.toList).contains ',' = true
      · rw [if_pos hc] at hok'
        simp only [processDatagram]
        rw [if_pos hf, if_pos hc]
        obtain ⟨sp, hsp⟩ : ∃ sp, splitComma (stripMarkers m.toList) = sp := ⟨_, rfl⟩
        rcases sp with _ | ⟨a, _ | ⟨b, _ | _⟩⟩
        · simp only [hsp]
          simp
        · simp only [hsp]
          simp
        · rw [hsp] at hok'
          simp only [hsp]
          by_cases hsent : stripMarkers m.toList = "RESET_REQUESTED".toList
          · exact absurd hc (by rw [hsent, sentinel_no_comma]; simp)
          · rw [if_neg hsent]
            have hsentb : (stripMarkers m.toList == "RESET_REQUESTED".toList) = false :=
              beq_eq_false_iff_ne.mpr hsent
            have hpi : pyInt b = none := by
              rw [hsentb] at hok'
              simp only [Bool.false_or] at hok'
              exact Option.not_isSome_iff_eq_none.mp (by simp [hok'])
            rw [hpi]
            exact Or.inr (Or.inr (Or.inl ⟨_, rfl⟩))
        · simp only [hsp]
          simp
      · rw [if_neg hc] at hok'
        exact absurd hok' (by simp)
    · rw [if_neg hf] at hok'
      exact absurd hok' (by simp)

lemma dequeAppend_length_le (l : List Int) (x : Int) : (dequeAppend l x).length ≤ 30 := by
  simp [dequeAppend]
  omega

lemma dequeAppend_ne_nil (l : List Int) (x : Int) : dequeAppend l x ≠ [] := by
  have hlen : 0 < (dequeAppend l x).length := by
    simp [dequeAppend]
    omega
  exact List.length_pos.mp hlen

lemma outState_analogReadings (now ip m : String) (s : PyState) :
    (outState (processDatagram now ip s m)).analogReadings = s.analogReadings ∨
    (outState (processDatagram now ip s m)).analogReadings =
      dequeAppend s.analogReadings (readingOf m) := by
  rcases processDatagram_cases now ip s m with h | ⟨e, h⟩ | ⟨e, h⟩ | h | ⟨hacc, h⟩ <;>
    rw [h] <;> simp [outState, pdApplied]

lemma runLoop_readings_le (msgs : List Datagram) (s : PyState)
    (h : s.analogReadings.length ≤ 30) :
    (runLoop s msgs).analogReadings.length ≤ 30 := by
  induction msgs generalizing s with
  | nil => simpa [runLoop] using h
  | cons d rest ih =>
    obtain ⟨now, ip, m⟩ := d
    rcases processDatagram_cases now ip s m with h1 | ⟨e, h1⟩ | ⟨e, h1⟩ | h1 | ⟨hacc, h1⟩ <;>
      simp only [runLoop, h1]
    · exact ih _ h
    · exact ih _ (by simpa using h)
    · simpa using h
    · simpa using h
    · exact ih _ (by simpa [pdApplied] using dequeAppend_length_le s.analogReadings (readingOf m))

lemma alistLookup_append_some {α : Type} (cs l : List (String × α)) (k : String) (c : α)
    (h : alistLookup cs k = some c) : alistLookup (cs ++ l) k = some c := by
  induction cs with
  | nil => simp [alistLookup] at h
  | cons hd tl ih =>
    obtain ⟨k2, v⟩ := hd
    by_cases hk : k2 = k
    · simpa [alistLookup, hk] using h
    · simp only [List.cons_append, alistLookup, if_neg hk] at h ⊢
      exact ih h

lemma processDatagram_colors_mono (now ip m : String) (s : PyState) (id c : String)
    (h : alistLookup s.swarmColors id = some c) :
    alistLookup (outState (processDatagram now ip s m)).swarmColors id = some c := by
  rcases processDatagram_cases now ip s m with h1 | ⟨e, h1⟩ | ⟨e, h1⟩ | h1 | ⟨hacc, h1⟩ <;>
    rw [h1] <;> simp only [outState]
  · exact h
  · exact h
  · exact h
  · exact h
  · simp only [pdApplied]
    by_cases hcl : (alistLookup s.swarmColors (swarmIdOf m)).isSome = true
    · rw [if_pos hcl]; exact h
    · rw [if_neg hcl]; exact alistLookup_append_some _ _ _ _ h

lemma runLoop_colors_mono (msgs : List Datagram) (s : PyState) (id c : String)
    (h : alistLookup s.swarmColors id = some c) :
    alistLookup (runLoop s msgs).swarmColors id = some c := by
  induction msgs generalizing s with
  | nil => simpa [runLoop] using h
  | cons d rest ih =>
    obtain ⟨now, ip, m⟩ := d
    have hstep := processDatagram_colors_mono now ip m s id c h
    rcases hq : processDatagram now ip s m with s2 | s2 <;>
      rw [hq] at hstep <;> simp only [runLoop, hq]
    · exact hstep
    · exact ih _ hstep

/-- Color table over an exception-free run: exactly the fold of
insert-if-absent over the accepted ids. -/
lemma runLoop_colors (msgs : List Datagram) (s : PyState)
    (h : ∀ x ∈ msgs, msgOk x.2.2 = true) :
    (runLoop s msgs).swarmColors = insertAll s.swarmColors (acceptedIds msgs) := by
  induction msgs generalizing s with
  | nil => simp [runLoop, acceptedIds, insertAll, List.filter]
  | cons d rest ih =>
    obtain ⟨now, ip, m⟩ := d
    have hd : msgOk m = true := h (now, ip, m) (by simp)
    have hrest : ∀ x ∈ rest, msgOk x.2.2 = true := fun x hx => h x (List.mem_cons_of_mem _ hx)
    rw [runLoop_cons_ok now ip m s rest hd]
    by_cases hacc : acceptedMsg m = true
    · rw [if_pos hacc, ih _ hrest]
      have hids : acceptedIds ((now, ip, m) :: rest) = swarmIdOf m :: acceptedIds rest := by
        simp [acceptedIds, List.filter_cons, hacc]
      rw [hids]
      simp only [insertAll, pdApplied]
    · rw [if_neg hacc, ih _ hrest]
      have haccb : acceptedMsg m = false := by
        revert hacc; cases acceptedMsg m <;> simp
      have hids : acceptedIds ((now, ip, m) :: rest) = acceptedIds rest := by
        simp [acceptedIds, List.filter_cons, haccb]
      rw [hids]

lemma alistLookup_paletteAssign_isSome (acc : List String) (i : Nat) (j : String) :
    (alistLookup (paletteAssign i acc) j).isSome = acc.contains j := by
  induction acc generalizing i with
  | nil => simp [paletteAssign, alistLookup]
  | cons x rest ih =>
    by_cases hx : x = j
    · simp [paletteAssign, alistLookup, hx, List.contains_cons]
    · have hjx : (j == x) = false := beq_eq_false_iff_ne.mpr (fun hh => hx hh.symm)
      simp only [paletteAssign, alistLookup, if_neg hx, List.contains_cons, hjx,
        Bool.false_or]
      exact ih (i + 1)

lemma length_paletteAssign (acc : List String) (i : Nat) :
    (paletteAssign i acc).length = acc.length := by
  induction acc generalizing i with
  | nil => simp [paletteAssign]
  | cons x rest ih => simp [paletteAssign, ih]

lemma paletteAssign_append (acc : List String) (j : String) (i : Nat) :
    paletteAssign i (acc ++ [j]) = paletteAssign i acc ++ [(j, colorFor (i + acc.length))] := by
  induction acc generalizing i with
  | nil => simp [paletteAssign]
  | cons x rest ih =>
    show (x, colorFor i) :: paletteAssign (i + 1) (rest ++ [j]) =
      paletteAssign i (x :: rest) ++ [(j, colorFor (i + (x :: rest).length))]
    rw [ih (i + 1)]
    have harith : i + 1 + rest.length = i + (rest.length + 1) := by omega
    rw [harith]
    simp [paletteAssign, List.cons_append]

lemma insertAll_paletteAssign (ids : List String) (acc : List String) :
    insertAll (paletteAssign 0 acc) ids = paletteAssign 0 (firstSeen acc ids) := by
  induction ids generalizing acc with
  | nil => simp [insertAll, firstSeen]
  | cons j rest ih =>
    simp only [insertAll, firstSeen]
    by_cases hj : acc.contains j = true
    · rw [if_pos (by rw [alistLookup_paletteAssign_isSome]; exact hj), if_pos hj]
      exact ih acc
    · have hjf : acc.contains j = false := by
        revert hj; cases acc.contains j <;> simp
      rw [if_neg (by rw [alistLookup_paletteAssign_isSome, hjf]; simp), if_neg hj]
      rw [length_paletteAssign]
      have hstep : paletteAssign 0 acc ++ [(j, colorFor acc.length)] =
          paletteAssign 0 (acc ++ [j]) := by
        rw [paletteAssign_append]
        simp
      rw [hstep]
      exact ih (acc ++ [j])

/-- C1: Invoking the Reset Coordinator executes its steps strictly in
order — set ResetRequest active, broadcast the reset sentinel datagram
exactly once, clear the store, drive the actuator active then inactive
with the 3-second hold between, set ResetRequest inactive — and
afterwards, for every prior store state, masterDuration is empty,
currentMaster is none, recentReadings is empty and colorOf is empty. -/
theorem C1_reset_sequence (s : PyState) :
    reset_system s =
      ([Effect.setResetFlag true, Effect.broadcast resetMessage, Effect.clearStore,
        Effect.setLed 1, Effect.sleep 3, Effect.setLed 0, Effect.setResetFlag false],
        { s with resetRequest := false, analogReadings := [], swarmColors := [],
                 currentMaster := none, masterDuration := [] }) ∧
    ((reset_system s).1.filter isBroadcast).length = 1 ∧
    (reset_system s).2.masterDuration = [] ∧
    (reset_system s).2.currentMaster = none ∧
    (reset_system s).2.analogReadings = [] ∧
    (reset_system s).2.swarmColors = [] := by
  refine ⟨rfl, ?_, rfl, rfl, rfl, rfl⟩
  rfl

/-- C2 (counterexample): the payload `+++A,x***` is framed with one
separator but a non-integer reading; the claim says it is discarded
with no state mutation and no exception, yet the loop body raises
(`Except.error`) after having already appended a raw log entry. -/
theorem C2_counterexample :
    processDatagram "t" "ip" initState "+++A,x***" =
      Except.error { initState with
                      masterLog := [("ip", ["Time: t, Swarm ID: A, Reading: x"])] } ∧
    outState (processDatagram "t" "ip" initState "+++A,x***") ≠ initState := by
  decide

/-- C2 (amended): payloads missing a framing marker, or framed with
zero separators, are discarded with the state unchanged and no
exception; a framed payload with two or more separators raises an
unpacking error that escapes the loop with the state unchanged. -/
theorem C2_malformed_payloads (now ip m : String) (s : PyState) :
    (framesOk m = false → processDatagram now ip s m = Except.ok s) ∧
    (framesOk m = true → (dataOf m).contains ',' = false →
      processDatagram now ip s m = Except.ok s) ∧
    (framesOk m = true → 3 ≤ (splitComma (dataOf m)).length →
      processDatagram now ip s m = Except.error s) := by
  refine ⟨?_, ?_, ?_⟩
  · intro h
    simp only [framesOk] at h
    simp only [processDatagram]
    rw [if_neg (by rw [h]; simp)]
  · intro h1 h2
    simp only [framesOk] at h1
    simp only [dataOf] at h2
    simp only [processDatagram]
    rw [if_pos h1, if_neg (by rw [h2]; simp)]
  · intro h1 h3
    have hc : (dataOf m).contains ',' = true :=
      contains_of_splitComma_two (by omega)
    simp only [framesOk] at h1
    simp only [dataOf] at h3 hc
    simp only [processDatagram]
    rw [if_pos h1, if_pos hc]
    obtain ⟨sp, hsp⟩ : ∃ sp, splitComma (stripMarkers m.toList) = sp := ⟨_, rfl⟩
    rw [hsp] at h3
    rcases sp with _ | ⟨a, _ | ⟨b, _ | _⟩⟩
    · simp at h3
    · simp at h3
    · simp at h3
    · simp only [hsp]

/-- C2 witness: concrete malformed payloads, one per amended case. -/
theorem C2_malformed_payloads_witness :
    processDatagram "t" "ip" initState "A,5" = Except.ok initState ∧
    processDatagram "t" "ip" initState "+++A5***" = Except.ok initState ∧
    processDatagram "t" "ip" initState "+++A,1,2***" = Except.error initState :=
  ⟨(C2_malformed_payloads "t" "ip" "A,5" initState).1 (by decide),
   (C2_malformed_payloads "t" "ip" "+++A5***" initState).2.1 (by decide) (by decide),
   (C2_malformed_payloads "t" "ip" "+++A,1,2***" initState).2.2 (by decide) (by decide)⟩

/-- C3 (counterexample): a datagram pending while the reset flag is
active is not discarded — it stays queued (the loop never calls
`recvfrom` during the window) and is fully applied to state on the
first iteration after the flag clears. -/
theorem C3_counterexample :
    (runWithResets [true] [("t", "ip", "+++A,5***")] initState).1 =
      [("t", "ip", "+++A,5***")] ∧
    (runWithResets [true, false] [("t", "ip", "+++A,5***")] initState).2.analogReadings =
      [5] := by
  decide

/-- C3 (amended): while ResetRequest is observed active, an iteration
of the ingestion loop receives nothing, decodes nothing and leaves
both the queue and the state untouched; queued datagrams remain
pending and may be processed after the reset window ends. -/
theorem C3_reset_window_pauses (bs : List Bool) (q : List Datagram) (s : PyState) :
    runWithResets (true :: bs) q s = runWithResets bs q s := rfl

/-- C4: the framed sentinel `+++RESET_REQUESTED***` has no separator,
so `listen_for_messages` discards it at the separator check before
the logging statement: no raw entry is appended and no state changes,
although the code's own (unreachable) sentinel filter and its comment
intend the sentinel to be logged first and only then skipped. -/
theorem C4_sentinel_discarded_without_log (now ip : String) (s : PyState) :
    processDatagram now ip s resetMessage = Except.ok s := by
  have hframes : (RPi_startBit.toList.isPrefixOf resetMessage.toList &&
      RPi_endBit.toList.isSuffixOf resetMessage.toList) = true := by decide
  have hnc : (stripMarkers resetMessage.toList).contains ',' = false := by decide
  simp only [processDatagram]
  rw [if_pos hframes, if_neg (by rw [hnc]; simp)]

/-- C5: over any exception-free run since start (or since a Reset),
each id's masterDuration equals the number of accepted non-sentinel
valid messages carrying that id, and after processing a valid
non-sentinel message with swarmId S the current master is S. -/
theorem C5_master_duration (msgs : List Datagram) (last : Datagram) (s0 : PyState)
    (id : String)
    (h1 : ∀ x ∈ msgs, msgOk x.2.2 = true) (h2 : acceptedMsg last.2.2 = true) :
    alistLookupNat (runLoop initState msgs).masterDuration id = countAccepted id msgs ∧
    alistLookupNat (runLoop (reset_system s0).2 msgs).masterDuration id =
      countAccepted id msgs ∧
    (runLoop initState (msgs ++ [last])).currentMaster = some (swarmIdOf last.2.2) := by
  refine ⟨?_, ?_, ?_⟩
  · rw [masterDuration_runLoop msgs initState id h1]
    simp [initState, alistLookupNat, alistLookup]
  · rw [masterDuration_runLoop msgs _ id h1]
    simp [reset_system, reset_systemE, alistLookupNat, alistLookup]
  · obtain ⟨now, ip, m⟩ := last
    rw [runLoop_append msgs [(now, ip, m)] initState h1,
      runLoop_cons_ok now ip m _ [] (msgOk_of_accepted h2), if_pos h2]
    rfl

/-- C5 witness: two accepted messages for A around one for B. -/
theorem C5_master_duration_witness :
    alistLookupNat (runLoop initState
        [("t1", "ip", "+++A,5***"), ("t2", "ip", "+++B,3***"), ("t3", "ip", "+++A,7***")]).masterDuration "A" =
      countAccepted "A"
        [("t1", "ip", "+++A,5***"), ("t2", "ip", "+++B,3***"), ("t3", "ip", "+++A,7***")] ∧
    alistLookupNat (runLoop (reset_system initState).2
        [("t1", "ip", "+++A,5***"), ("t2", "ip", "+++B,3***"), ("t3", "ip", "+++A,7***")]).masterDuration "A" =
      countAccepted "A"
        [("t1", "ip", "+++A,5***"), ("t2", "ip", "+++B,3***"), ("t3", "ip", "+++A,7***")] ∧
    (runLoop initState
        ([("t1", "ip", "+++A,5***"), ("t2", "ip", "+++B,3***"), ("t3", "ip", "+++A,7***")] ++
          [("t4", "ip", "+++B,9***")])).currentMaster =
      some (swarmIdOf "+++B,9***") :=
  C5_master_duration
    [("t1", "ip", "+++A,5***"), ("t2", "ip", "+++B,3***"), ("t3", "ip", "+++A,7***")]
    ("t4", "ip", "+++B,9***") initState "A" (by decide) (by decide)

lemma alistLookup_fsWrite (fs : List (String × String)) (f c : String) :
    alistLookup (fsWrite fs f c) f = some c := by
  induction fs with
  | nil => simp [fsWrite, alistLookup]
  | cons hd tl ih =>
    obtain ⟨k, v⟩ := hd
    by_cases hk : k = f
    · simp [fsWrite, alistLookup, hk]
    · simp [fsWrite, alistLookup, hk, ih]

/-- C6 (counterexample): one accepted message is logged in session 1;
after the button press (flush, rotate, reset) the supposedly fresh
session still holds that raw entry in memory — rotation never clears
`MASTER_LOG_TRACK`. -/
theorem C6_counterexample :
    (buttonPressAction "t2" "T2" []
        (outState (processDatagram "t1" "ip" (get_new_log_file "T1" initState)
          "+++A,5***"))).2.2.masterLog =
      [("ip", ["Time: t1, Swarm ID: A, Reading: 5"])] := by
  decide

/-- C6 (amended): flush followed by rotate (and the reset that
follows on a button press) leaves the in-memory raw entries exactly
as they were — they are never cleared — and the flushed file holds
the rendering of every raw entry accumulated since process start
(none is lost, but entries from before earlier rotations reappear). -/
theorem C6_flush_rotate (now newTs f : String) (fs : List (String × String)) (s : PyState)
    (h : s.logFile = some f) :
    (buttonPressAction now newTs fs s).2.2.masterLog = s.masterLog ∧
    (buttonPressAction now newTs fs s).1 = fsWrite fs f (renderLog now s) ∧
    alistLookup (fsWrite fs f (renderLog now s)) f = some (renderLog now s) := by
  refine ⟨?_, ?_, alistLookup_fsWrite fs f (renderLog now s)⟩
  · simp [buttonPressAction, get_new_log_file, reset_system, reset_systemE]
  · simp [buttonPressAction, save_current_logs, h]

/-- C6 witness: a session with one raw entry and an active log file. -/
theorem C6_flush_rotate_witness :
    (buttonPressAction "t2" "T2" []
        { initState with logFile := some "master_log_T1.txt",
                         masterLog := [("ip", ["e1"])] }).2.2.masterLog =
      [("ip", ["e1"])] ∧
    (buttonPressAction "t2" "T2" []
        { initState with logFile := some "master_log_T1.txt",
                         masterLog := [("ip", ["e1"])] }).1 =
      fsWrite [] "master_log_T1.txt"
        (renderLog "t2"
          { initState with logFile := some "master_log_T1.txt",
                           masterLog := [("ip", ["e1"])] }) ∧
    alistLookup
        (fsWrite [] "master_log_T1.txt"
          (renderLog "t2"
            { initState with logFile := some "master_log_T1.txt",
                             masterLog := [("ip", ["e1"])] }))
        "master_log_T1.txt" =
      some (renderLog "t2"
        { initState with logFile := some "master_log_T1.txt",
                         masterLog := [("ip", ["e1"])] }) :=
  C6_flush_rotate "t2" "T2" "master_log_T1.txt" []
    { initState with logFile := some "master_log_T1.txt", masterLog := [("ip", ["e1"])] }
    rfl

/-- C7 (counterexample): if the broadcast send raises, `reset_system`
has no handler — the exception escapes right after the flag is set:
the store (here with nonempty masterDuration) is not cleared, no LED
effect happens, and ResetRequest is left active. -/
theorem C7_counterexample :
    reset_systemE true
        { initState with masterDuration := [("A", 5), ("B", 3)], currentMaster := some "B" } =
      Except.error ([Effect.setResetFlag true],
        { initState with masterDuration := [("A", 5), ("B", 3)], currentMaster := some "B",
                         resetRequest := true }) ∧
    ({ initState with masterDuration := [("A", 5), ("B", 3)], currentMaster := some "B", resetRequest := true } : PyState).masterDuration ≠ [] := by
  refine ⟨rfl, ?_⟩
  decide

/-- C7 (amended): a transport error during the reset broadcast aborts
the rest of the sequence: for every prior state the only effect
performed is setting ResetRequest active, the exception escapes, the
store is left unchanged and ResetRequest stays active. -/
theorem C7_send_failure_aborts (s : PyState) :
    reset_systemE true s =
      Except.error ([Effect.setResetFlag true], { s with resetRequest := true }) := rfl

/-- C8: over any exception-free run since start, the color table is
exactly the ordered-palette assignment over the distinct accepted
swarm ids in order of first appearance (first red, second green,
every later one yellow), and an assigned color survives any further
processing. -/
theorem C8_color_policy (msgs more : List Datagram) (id c : String)
    (h1 : ∀ x ∈ msgs, msgOk x.2.2 = true)
    (h2 : alistLookup (runLoop initState msgs).swarmColors id = some c) :
    (runLoop initState msgs).swarmColors =
      paletteAssign 0 (firstSeen [] (acceptedIds msgs)) ∧
    alistLookup (runLoop (runLoop initState msgs) more).swarmColors id = some c := by
  refine ⟨?_, runLoop_colors_mono more _ id c h2⟩
  rw [runLoop_colors msgs initState h1]
  have hinit : initState.swarmColors = paletteAssign 0 [] := rfl
  rw [hinit, insertAll_paletteAssign]

/-- C8 witness: four distinct ids then a repeat; A red, B green, C
and D yellow, and A keeps red after one more message. -/
theorem C8_color_policy_witness :
    (runLoop initState
        [("t1", "ip", "+++A,1***"), ("t2", "ip", "+++B,2***"), ("t3", "ip", "+++C,3***"),
         ("t4", "ip", "+++D,4***"), ("t5", "ip", "+++A,9***")]).swarmColors =
      paletteAssign 0 (firstSeen [] (acceptedIds
        [("t1", "ip", "+++A,1***"), ("t2", "ip", "+++B,2***"), ("t3", "ip", "+++C,3***"),
         ("t4", "ip", "+++D,4***"), ("t5", "ip", "+++A,9***")])) ∧
    alistLookup (runLoop (runLoop initState
        [("t1", "ip", "+++A,1***"), ("t2", "ip", "+++B,2***"), ("t3", "ip", "+++C,3***"),
         ("t4", "ip", "+++D,4***"), ("t5", "ip", "+++A,9***")])
        [("t6", "ip", "+++E,5***")]).swarmColors "A" = some "red" :=
  C8_color_policy
    [("t1", "ip", "+++A,1***"), ("t2", "ip", "+++B,2***"), ("t3", "ip", "+++C,3***"),
     ("t4", "ip", "+++D,4***"), ("t5", "ip", "+++A,9***")]
    [("t6", "ip", "+++E,5***")] "A" "red" (by decide) (by decide)

/-- C9: recentReadings stays within 30 elements along any run from a
within-bound state; appending to a full buffer drops exactly the
oldest element and puts the new reading last; one loop iteration
never empties a nonempty buffer (only Reset clears it). -/
theorem C9_recent_readings (s : PyState) (msgs : List Datagram) (l : List Int) (x : Int)
    (now ip m : String)
    (h1 : s.analogReadings.length ≤ 30) (h2 : l.length = 30)
    (h3 : s.analogReadings ≠ []) :
    (runLoop s msgs).analogReadings.length ≤ 30 ∧
    dequeAppend l x = l.drop 1 ++ [x] ∧
    (outState (processDatagram now ip s m)).analogReadings ≠ [] ∧
    (reset_system s).2.analogReadings = [] := by
  refine ⟨runLoop_readings_le msgs s h1, ?_, ?_, rfl⟩
  · have hlen : (l ++ [x]).length - 30 = 1 := by simp [h2]
    simp only [dequeAppend]
    rw [hlen, List.drop_append_of_le_length (by rw [h2]; omega)]
  · rcases outState_analogReadings now ip m s with hh | hh <;> rw [hh]
    · exact h3
    · exact dequeAppend_ne_nil _ _

/-- C9 witness: a one-element buffer, a full 30-element buffer, and a
concrete message. -/
theorem C9_recent_readings_witness :
    (runLoop { initState with analogReadings := [7] }
        [("t", "ip", "+++A,5***")]).analogReadings.length ≤ 30 ∧
    dequeAppend (List.replicate 30 0) 9 = (List.replicate 30 0).drop 1 ++ [9] ∧
    (outState (processDatagram "t2" "ip" { initState with analogReadings := [7] }
        "+++B,6***")).analogReadings ≠ [] ∧
    (reset_system { initState with analogReadings := [7] }).2.analogReadings = [] :=
  C9_recent_readings { initState with analogReadings := [7] } [("t", "ip", "+++A,5***")]
    (List.replicate 30 0) 9 "t2" "ip" "+++B,6***" (by decide) (by decide) (by decide)

/-- C10 (counterexample): `+++A,1,2***` passes framing and contains
two separators (so at least one), yet tuple unpacking raises before
the logging statement: the loop dies and no raw entry is written,
contrary to the claim that any framed payload with at least one
separator is logged. -/
theorem C10_counterexample :
    framesOk "+++A,1,2***" = true ∧
    (splitComma (dataOf "+++A,1,2***")).length = 3 ∧
    processDatagram "t" "ip" initState "+++A,1,2***" = Except.error initState ∧
    (outState (processDatagram "t" "ip" initState "+++A,1,2***")).masterLog = [] := by
  decide

/-- C10 (amended): for every framed payload with exactly one
separator, the raw log line is appended before the reading is parsed,
so even a payload whose reading fails `int(...)` (or whose swarmId is
empty) leaves its log entry in the per-sender log. -/
theorem C10_log_before_parse (now ip m : String) (s : PyState) (a b : List Char)
    (h1 : framesOk m = true) (h2 : splitComma (dataOf m) = [a, b]) :
    (outState (processDatagram now ip s m)).masterLog =
      alistAppendEntry s.masterLog ip (logLineOf now m) := by
  have hc : (dataOf m).contains ',' = true :=
    contains_of_splitComma_two (by rw [h2]; simp)
  have hlog : logLineOf now m =
      "Time: " ++ now ++ ", Swarm ID: " ++ String.mk a ++ ", Reading: " ++ String.mk b := by
    simp only [logLineOf, h2]
  simp only [framesOk] at h1
  simp only [dataOf] at h2 hc
  simp only [processDatagram]
  rw [if_pos h1, if_pos hc, hlog]
  obtain ⟨sp, hsp⟩ : ∃ sp, splitComma (stripMarkers m.toList) = sp := ⟨_, rfl⟩
  rw [hsp] at h2
  subst h2
  simp only [hsp]
  by_cases hsent : stripMarkers m.toList = "RESET_REQUESTED".toList
  · rw [if_pos hsent]
    rfl
  · rw [if_neg hsent]
    rcases hpi : pyInt b with _ | r
    · simp only [hpi]
      rfl
    · simp only [hpi]
      by_cases hcl : (alistLookup s.swarmColors (String.mk a)).isSome = true
      · simp only [if_pos hcl]
        by_cases hcm : s.currentMaster ≠ some (String.mk a)
        · rw [if_pos hcm]
          rfl
        · rw [if_neg hcm]
          rfl
      · simp only [if_neg hcl]
        by_cases hcm : s.currentMaster ≠ some (String.mk a)
        · rw [if_pos hcm]
          rfl
        · rw [if_neg hcm]
          rfl

/-- C10 witness: an unparsable reading still leaves its log entry. -/
theorem C10_log_before_parse_witness :
    (outState (processDatagram "t" "ip" initState "+++A,x***")).masterLog =
      alistAppendEntry initState.masterLog "ip" (logLineOf "t" "+++A,x***") :=
  C10_log_before_parse "t" "ip" "+++A,x***" initState "A".toList "x".toList
    (by decide) (by decide)
